import Mathlib

/-!
Verification of the cbfs restore pipeline (`tools/cbfsadm/restore.go`).

The Go source is shallowly embedded:
* `restoreFile` is the per-item restore client, translated branch by branch;
  the HTTP response is an explicit `ServerResp` input, and the result records
  the issued requests, log lines and the classified outcome
  (`cbfstool.MaybeFatal` on a transport error becomes the `fatalTransport`
  outcome, which terminates the whole process).
* `restoreWorkerRun` is the body of `restoreWorker`: it drains a list of
  received items, logging per-item failures and continuing, and stopping only
  when a transport error kills the process.
* `restoreCommand` (with `restoreLoop`) is the coordinator as a sequential
  trace of events: pattern compilation, file open, gzip open, worker spawns,
  per-record decode/filter/dispatch, channel close, join barrier and the final
  summary; fatal conditions truncate the trace.
* `step`/`runSteps` is a small-step interleaved semantics of the same
  pipeline with an explicit scheduler, used for the concurrency claims:
  the unbuffered channel is a rendezvous (`Choice.recv`), worker processing is
  a separate step (`Choice.finish`), and `log.Fatalf`/`os.Exit` freezes the
  state immediately.
* Go's `regexp` (only the features the tool exercises) is modelled by `Rx`
  with a Brzozowski-derivative matcher; `MatchString` searches for a match of
  any substring, as Go's does for unanchored patterns.
-/

set_option maxHeartbeats 1000000

namespace Cbfs

/-- Raw metadata payload (`Meta *json.RawMessage` in the source). `valid`
models whether `json.Marshal` succeeds on it, `repr` the serialized bytes. -/
structure MetaV where
  valid : Bool
  repr : String
deriving DecidableEq

/-- One decoded record (`restoreWorkItem` in the source). -/
structure WorkItem where
  Path : String
  Meta : MetaV
deriving DecidableEq

/-- The command-line flags that `restoreFile` reads. -/
structure Flags where
  force : Bool
  noop : Bool
  expire : Int
deriving DecidableEq

/-- The server's reaction to one POST: either the transport fails (no HTTP
response at all) or an HTTP status code comes back. -/
inductive ServerResp where
  | transportError
  | status (code : Nat)
deriving DecidableEq

/-- An HTTP request as built by `restoreFile`. -/
structure Request where
  method : String
  urlBase : String
  urlPath : String
  contentType : String
  expirationHeader : String
  body : String
deriving DecidableEq

/-- Log lines emitted by the program, as structured events. -/
inductive LogMsg where
  | noopRestore (path : String)
  | restored (path : String)
  | fatalPost (path : String)
  | errorRestoring (path : String)
  | fatalDecodeLog
  | summaryLog (n : Nat)
deriving DecidableEq

/-- Classification of one `restoreFile` call: success, a marshal error, an
HTTP-level error (returned to the worker), or a fatal transport error
(`cbfstool.MaybeFatal` exits the process). -/
inductive FOutcome where
  | ok
  | errMarshal
  | errHTTP (code : Nat)
  | fatalTransport
deriving DecidableEq

/-- Everything one `restoreFile` call does: whether `json.Marshal` was
invoked, the requests sent, the log lines written, and the outcome. -/
structure FResult where
  serialized : Bool
  requests : List Request
  logs : List LogMsg
  outcome : FOutcome
deriving DecidableEq

/-- The request `restoreFile` builds for an item: POST to the restore
namespace joined with the item's path, JSON content type, and the expiration
override header rendered in decimal (`strconv.Itoa(*restoreExpire)`). -/
def mkRequest (fl : Flags) (base : String) (it : WorkItem) : Request :=
  { method := "POST"
    urlBase := base
    urlPath := "/.cbfs/backup/restore/" ++ it.Path
    contentType := "application/json"
    expirationHeader := toString fl.expire
    body := it.Meta.repr }

/-- Translation of `restoreFile` from the source: noop short-circuit, marshal,
request construction with the two headers, `MaybeFatal` on transport error,
then the status switch (201 logs success; 409 without force is silently OK;
anything else is an error returned to the caller). -/
def restoreFile (fl : Flags) (base : String) (it : WorkItem) (resp : ServerResp) : FResult :=
  if fl.noop then
    { serialized := false, requests := [], logs := [.noopRestore it.Path], outcome := .ok }
  else if !it.Meta.valid then
    { serialized := true, requests := [], logs := [], outcome := .errMarshal }
  else
    let req := mkRequest fl base it
    match resp with
    | .transportError =>
        { serialized := true, requests := [req], logs := [.fatalPost it.Path],
          outcome := .fatalTransport }
    | .status code =>
        if code = 201 then
          { serialized := true, requests := [req], logs := [.restored it.Path], outcome := .ok }
        else if code = 409 && !fl.force then
          { serialized := true, requests := [req], logs := [], outcome := .ok }
        else
          { serialized := true, requests := [req], logs := [], outcome := .errHTTP code }

/-- Whether an outcome is a per-item error that `restoreWorker` logs. -/
def isFailure : FOutcome → Bool
  | .errMarshal => true
  | .errHTTP _ => true
  | _ => false

/-- Aggregate result of one worker draining its received items. -/
structure WRun where
  requests : List Request
  logs : List LogMsg
  fatalExit : Bool
deriving DecidableEq

/-- Translation of the body of `restoreWorker`: process the received items in
order; a non-nil error from `restoreFile` is logged with the item's path and
the worker moves on; a transport error has already killed the process, so
nothing after it runs. -/
def restoreWorkerRun (fl : Flags) (base : String) (world : WorkItem → ServerResp) :
    List WorkItem → WRun
  | [] => ⟨[], [], false⟩
  | it :: rest =>
    let r := restoreFile fl base it (world it)
    if r.outcome = .fatalTransport then ⟨r.requests, r.logs, true⟩
    else
      let w := restoreWorkerRun fl base world rest
      if isFailure r.outcome then
        ⟨r.requests ++ w.requests, r.logs ++ [.errorRestoring it.Path] ++ w.logs, w.fatalExit⟩
      else
        ⟨r.requests ++ w.requests, r.logs ++ w.logs, w.fatalExit⟩

/-- C4: with the noop flag set, `restoreFile` performs no serialization and no
network call, logs the intended path, and returns success — whatever the
force and expire flags (and the server behaviour, which is never consulted;
the match pattern is not even in scope of `restoreFile`). -/
theorem c4_noop_no_network (fl : Flags) (base : String) (it : WorkItem) (resp : ServerResp)
    (h : fl.noop = true) :
    restoreFile fl base it resp =
      { serialized := false, requests := [], logs := [LogMsg.noopRestore it.Path],
        outcome := .ok } := by
  simp [restoreFile, h]

/-- Witness for C4 at a concrete item, with force set and a custom expire. -/
theorem c4_noop_no_network_witness :
    (Flags.noop ⟨true, true, 42⟩ = true) ∧
    restoreFile ⟨true, true, 42⟩ "http://cbfs:8484" ⟨"a/b", ⟨true, "m"⟩⟩ .transportError =
      { serialized := false, requests := [], logs := [LogMsg.noopRestore "a/b"],
        outcome := .ok } :=
  ⟨rfl, c4_noop_no_network ⟨true, true, 42⟩ "http://cbfs:8484" ⟨"a/b", ⟨true, "m"⟩⟩
    .transportError rfl⟩

/-- Helper: with noop unset and marshallable metadata, every call issues
exactly the one request built by `mkRequest`, whatever the response. -/
theorem restoreFile_requests_eq (fl : Flags) (base : String) (it : WorkItem) (resp : ServerResp)
    (hno : fl.noop = false) (hv : it.Meta.valid = true) :
    (restoreFile fl base it resp).requests = [mkRequest fl base it] := by
  cases resp with
  | transportError => simp [restoreFile, hno, hv]
  | status code =>
    by_cases h201 : code = 201
    · simp [restoreFile, hno, hv, h201]
    · by_cases h409 : (decide (code = 409) && !fl.force) = true
      · simp [restoreFile, hno, hv, h201, h409]
      · simp [restoreFile, hno, hv, h201, h409]

/-- Helper: an HTTP response (of any status) never yields the fatal-transport
outcome; only a transport error does. -/
theorem restoreFile_status_not_fatal (fl : Flags) (base : String) (it : WorkItem) (code : Nat) :
    (restoreFile fl base it (ServerResp.status code)).outcome ≠ .fatalTransport := by
  by_cases hn : fl.noop = true
  · simp [restoreFile, hn]
  · rw [Bool.not_eq_true] at hn
    cases hv : it.Meta.valid with
    | false => simp [restoreFile, hn, hv]
    | true =>
      by_cases h201 : code = 201
      · simp [restoreFile, hn, hv, h201]
      · by_cases h409 : (decide (code = 409) && !fl.force) = true
        · simp [restoreFile, hn, hv, h201, h409]
        · simp [restoreFile, hn, hv, h201, h409]

/-- C2: with noop unset and a marshallable item, a 409 response without force
is a silent success (no log line, nil error); a 409 with force is an error.
Consequently, against a server that always answers 409, a worker's whole run
logs nothing when force is unset, and logs exactly one failure line per item
when force is set. -/
theorem c2_conflict_force (fl : Flags) (base : String) (it : WorkItem) (items : List WorkItem)
    (hno : fl.noop = false) (hv : it.Meta.valid = true)
    (hvs : ∀ j ∈ items, j.Meta.valid = true) :
    (fl.force = false →
      restoreFile fl base it (.status 409) =
        { serialized := true, requests := [mkRequest fl base it], logs := [],
          outcome := .ok }) ∧
    (fl.force = true →
      (restoreFile fl base it (.status 409)).outcome = .errHTTP 409 ∧
      (restoreFile fl base it (.status 409)).logs = []) ∧
    (fl.force = false →
      restoreWorkerRun fl base (fun _ => .status 409) items =
        ⟨items.map (mkRequest fl base), [], false⟩) ∧
    (fl.force = true →
      (restoreWorkerRun fl base (fun _ => .status 409) items).logs =
        items.map fun j => LogMsg.errorRestoring j.Path) := by
  refine ⟨fun hf => ?_, fun hf => ?_, fun hf => ?_, fun hf => ?_⟩
  · simp [restoreFile, hno, hv, hf]
  · simp [restoreFile, hno, hv, hf]
  · induction items with
    | nil => simp [restoreWorkerRun]
    | cons j rest ih =>
      have hj : j.Meta.valid = true := hvs j (by simp)
      have hrest : ∀ k ∈ rest, k.Meta.valid = true := fun k hk => hvs k (by simp [hk])
      simp [restoreWorkerRun, restoreFile, hno, hj, hf, isFailure, ih hrest]
  · induction items with
    | nil => simp [restoreWorkerRun]
    | cons j rest ih =>
      have hrest : ∀ k ∈ rest, k.Meta.valid = true := fun k hk => hvs k (by simp [hk])
      by_cases hj : j.Meta.valid = true
      · simp [restoreWorkerRun, restoreFile, hno, hj, hf, isFailure, ih hrest]
      · simp [restoreWorkerRun, restoreFile, hno, hj, hf, isFailure, ih hrest]

/-- Witness for C2: one item against an always-409 server, both force
settings. -/
theorem c2_conflict_force_witness :
    ((Flags.noop ⟨false, false, -1⟩ = false) ∧ (MetaV.valid ⟨true, "m"⟩ = true)) ∧
    (restoreWorkerRun ⟨false, false, -1⟩ "http://cbfs:8484" (fun _ => .status 409)
        [⟨"p", ⟨true, "m"⟩⟩] =
      ⟨[mkRequest ⟨false, false, -1⟩ "http://cbfs:8484" ⟨"p", ⟨true, "m"⟩⟩], [], false⟩) ∧
    (restoreWorkerRun ⟨true, false, -1⟩ "http://cbfs:8484" (fun _ => .status 409)
        [⟨"p", ⟨true, "m"⟩⟩]).logs = [LogMsg.errorRestoring "p"] := by
  have h1 := c2_conflict_force ⟨false, false, -1⟩ "http://cbfs:8484" ⟨"p", ⟨true, "m"⟩⟩
    [⟨"p", ⟨true, "m"⟩⟩] rfl rfl (by decide)
  have h2 := c2_conflict_force ⟨true, false, -1⟩ "http://cbfs:8484" ⟨"p", ⟨true, "m"⟩⟩
    [⟨"p", ⟨true, "m"⟩⟩] rfl rfl (by decide)
  exact ⟨⟨rfl, rfl⟩, h1.2.2.1 rfl, h2.2.2.2 rfl⟩

/-- C3: a transport-level failure is fatal — the worker's run stops there with
the process-exit flag set and no later item is touched — while any HTTP status
other than 201 and other than 409-without-force only yields a per-item error:
the worker logs it with the item's path and continues, every item is sent
exactly one request (no retry, no requeue), and no such run sets the fatal
flag. -/
theorem c3_transport_fatal_vs_item_error (fl : Flags) (base : String)
    (world : WorkItem → ServerResp) (hno : fl.noop = false) :
    (∀ it : WorkItem, it.Meta.valid = true →
      (restoreFile fl base it .transportError).outcome = .fatalTransport) ∧
    (∀ (it : WorkItem) (code : Nat), it.Meta.valid = true → code ≠ 201 →
      (code = 409 → fl.force = true) →
      (restoreFile fl base it (.status code)).outcome = .errHTTP code) ∧
    (∀ (it : WorkItem) (rest : List WorkItem), it.Meta.valid = true →
      world it = .transportError →
      restoreWorkerRun fl base world (it :: rest) =
        ⟨[mkRequest fl base it], [.fatalPost it.Path], true⟩) ∧
    (∀ items : List WorkItem,
      (∀ j ∈ items, j.Meta.valid = true ∧ world j ≠ .transportError) →
      (restoreWorkerRun fl base world items).requests = items.map (mkRequest fl base) ∧
      (restoreWorkerRun fl base world items).fatalExit = false ∧
      ∀ j ∈ items, isFailure (restoreFile fl base j (world j)).outcome = true →
        LogMsg.errorRestoring j.Path ∈ (restoreWorkerRun fl base world items).logs) := by
  refine ⟨fun it hv => ?_, fun it code hv hc hcf => ?_, fun it rest hv hw => ?_, ?_⟩
  · simp [restoreFile, hno, hv]
  · rcases Nat.decEq code 409 with h409 | h409
    · simp [restoreFile, hno, hv, hc, h409]
    · subst h409
      simp [restoreFile, hno, hv, hcf rfl]
  · simp [restoreWorkerRun, restoreFile, hno, hv, hw]
  · intro items hgood
    induction items with
    | nil => simp [restoreWorkerRun]
    | cons j rest ih =>
      obtain ⟨hjv, hjw⟩ := hgood j (by simp)
      have hrest : ∀ k ∈ rest, k.Meta.valid = true ∧ world k ≠ .transportError :=
        fun k hk => hgood k (List.mem_cons_of_mem _ hk)
      have hnf : (restoreFile fl base j (world j)).outcome ≠ .fatalTransport := by
        cases hw : world j with
        | transportError => exact absurd hw hjw
        | status code => exact restoreFile_status_not_fatal fl base j code
      have hr := restoreFile_requests_eq fl base j (world j) hno hjv
      obtain ⟨ihr, ihf, ihl⟩ := ih hrest
      refine ⟨?_, ?_, ?_⟩
      · rw [restoreWorkerRun, if_neg hnf]
        split <;> simp [hr, ihr]
      · rw [restoreWorkerRun, if_neg hnf]
        split <;> simpa using ihf
      · intro k hk hfail
        rw [restoreWorkerRun, if_neg hnf]
        rcases List.mem_cons.mp hk with hkj | hkr
        · subst hkj
          rw [if_pos hfail]
          simp
        · have hmem := ihl k hkr hfail
          split <;> simp [hmem]

/-- Witness for C3: a 500 status on the first of two items is logged and the
second item is still requested; a transport error on the first item stops the
run with the fatal flag. -/
theorem c3_transport_fatal_vs_item_error_witness :
    (Flags.noop ⟨false, false, -1⟩ = false) ∧
    (restoreWorkerRun ⟨false, false, -1⟩ "http://cbfs:8484"
        (fun j => if j.Path = "p" then .status 500 else .status 201)
        [⟨"p", ⟨true, "m"⟩⟩, ⟨"q", ⟨true, "m"⟩⟩]).requests =
      [mkRequest ⟨false, false, -1⟩ "http://cbfs:8484" ⟨"p", ⟨true, "m"⟩⟩,
       mkRequest ⟨false, false, -1⟩ "http://cbfs:8484" ⟨"q", ⟨true, "m"⟩⟩] ∧
    LogMsg.errorRestoring "p" ∈
      (restoreWorkerRun ⟨false, false, -1⟩ "http://cbfs:8484"
        (fun j => if j.Path = "p" then .status 500 else .status 201)
        [⟨"p", ⟨true, "m"⟩⟩, ⟨"q", ⟨true, "m"⟩⟩]).logs ∧
    restoreWorkerRun ⟨false, false, -1⟩ "http://cbfs:8484" (fun _ => .transportError)
        [⟨"p", ⟨true, "m"⟩⟩, ⟨"q", ⟨true, "m"⟩⟩] =
      ⟨[mkRequest ⟨false, false, -1⟩ "http://cbfs:8484" ⟨"p", ⟨true, "m"⟩⟩],
       [.fatalPost "p"], true⟩ := by
  have h1 := c3_transport_fatal_vs_item_error ⟨false, false, -1⟩ "http://cbfs:8484"
    (fun j => if j.Path = "p" then .status 500 else .status 201) rfl
  have h2 := c3_transport_fatal_vs_item_error ⟨false, false, -1⟩ "http://cbfs:8484"
    (fun _ => .transportError) rfl
  obtain ⟨hreq, _, hlog⟩ := h1.2.2.2 [⟨"p", ⟨true, "m"⟩⟩, ⟨"q", ⟨true, "m"⟩⟩] (by decide)
  refine ⟨rfl, hreq, hlog ⟨"p", ⟨true, "m"⟩⟩ (by decide) (by decide), ?_⟩
  exact h2.2.2.1 ⟨"p", ⟨true, "m"⟩⟩ [⟨"q", ⟨true, "m"⟩⟩] rfl rfl

/-- C7: whenever noop is unset and the metadata marshals, `restoreFile` issues
exactly one request: a POST under the fixed restore namespace joined with the
item's path, marked `application/json`, whose body is the serialized metadata,
and carrying the expiration header with the decimal rendering of the expire
flag — also when that flag is the sentinel -1. -/
theorem c7_request_shape (fl : Flags) (base : String) (it : WorkItem) (resp : ServerResp)
    (hno : fl.noop = false) (hv : it.Meta.valid = true) :
    (restoreFile fl base it resp).requests =
      [{ method := "POST", urlBase := base,
         urlPath := "/.cbfs/backup/restore/" ++ it.Path,
         contentType := "application/json",
         expirationHeader := toString fl.expire,
         body := it.Meta.repr }] := by
  cases resp with
  | transportError => simp [restoreFile, hno, hv, mkRequest]
  | status code =>
    simp only [restoreFile, hno, hv]
    simp only [Bool.not_true, Bool.false_eq_true, if_false, if_true]
    split
    · simp [mkRequest]
    · split <;> simp [mkRequest]

/-- Witness for C7 at the sentinel expire value -1: the header field is the
string "-1". -/
theorem c7_request_shape_witness :
    ((Flags.noop ⟨false, false, -1⟩ = false) ∧ (MetaV.valid ⟨true, "m"⟩ = true)) ∧
    (restoreFile ⟨false, false, -1⟩ "http://cbfs:8484" ⟨"d/e", ⟨true, "m"⟩⟩
        (.status 500)).requests =
      [{ method := "POST", urlBase := "http://cbfs:8484",
         urlPath := "/.cbfs/backup/restore/d/e",
         contentType := "application/json",
         expirationHeader := "-1",
         body := "m" }] := by
  have h := c7_request_shape ⟨false, false, -1⟩ "http://cbfs:8484" ⟨"d/e", ⟨true, "m"⟩⟩
    (.status 500) rfl rfl
  exact ⟨⟨rfl, rfl⟩, h.trans (by decide)⟩

/-- Regular expressions, modelling the subset of Go `regexp` syntax the tool
exercises: literal characters, `.`, and postfix `*`. -/
inductive Rx where
  | emp
  | eps
  | dot
  | chr (c : Char)
  | alt (a b : Rx)
  | cat (a b : Rx)
  | star (a : Rx)
deriving DecidableEq

/-- Whether the regex accepts the empty string; `.` consumes exactly one
character, so it does not. -/
def nullable : Rx → Bool
  | .emp => false
  | .eps => true
  | .dot => false
  | .chr _ => false
  | .alt a b => nullable a || nullable b
  | .cat a b => nullable a && nullable b
  | .star _ => true

/-- Brzozowski derivative of a regex by one character. -/
def deriv (r : Rx) (c : Char) : Rx :=
  match r with
  | .emp => .emp
  | .eps => .emp
  | .dot => .eps
  | .chr a => if c = a then .eps else .emp
  | .alt a b => .alt (deriv a c) (deriv b c)
  | .cat a b => if nullable a then .alt (.cat (deriv a c) b) (deriv b c) else .cat (deriv a c) b
  | .star a => .cat (deriv a c) (.star a)

/-- Whether the regex matches the whole character list. -/
def rxMatch (r : Rx) : List Char → Bool
  | [] => nullable r
  | c :: cs => rxMatch (deriv r c) cs

/-- Go's `MatchString` for an unanchored pattern: some substring matches. -/
def containsMatch (r : Rx) (l : List Char) : Bool :=
  (List.range (l.length + 1)).any fun i =>
    (List.range (l.length - i + 1)).any fun k =>
      rxMatch r ((l.drop i).take k)

/-- The compiled pattern's `MatchString`, applied to a path. -/
def matchString (r : Rx) (s : String) : Bool := containsMatch r s.data

/-- Characters our model of the Go `regexp` compiler refuses as literal atoms
(operators, grouping, classes, anchors, escapes). -/
def metaChar (c : Char) : Bool :=
  c = '*' || c = '(' || c = ')' || c = '[' || c = ']' || c = '|' || c = '+' || c = '?' ||
  c = '^' || c = '$' || c = '\\' || c = Char.ofNat 123 || c = Char.ofNat 125

/-- Parse the modelled pattern subset: a sequence of atoms (literal or `.`),
each optionally starred; anything else fails to compile, as Go rejects e.g.
an unmatched `(` or a bare `*`. -/
def parseRx : List Char → Option Rx
  | [] => some .eps
  | c :: rest =>
    if metaChar c then none
    else
      let a : Rx := if c = '.' then .dot else .chr c
      match rest with
      | '*' :: rest2 => (parseRx rest2).map fun r => .cat (.star a) r
      | [] => some (.cat a .eps)
      | c2 :: rest2 => (parseRx (c2 :: rest2)).map fun r => .cat a r

/-- Model of `regexp.Compile` on the flag string. -/
def regexCompile (s : String) : Option Rx := parseRx s.data

/-- The compiled form of the default pattern `".*"`. -/
def defaultRx : Rx := .cat (.star .dot) .eps

/-- One pull from the JSON decoder: a record, clean end of stream, or a
malformed record (any non-EOF decode error). -/
inductive DecodeResult where
  | ok (it : WorkItem)
  | eofR
  | corrupt
deriving DecidableEq

/-- The observable events of one `restoreCommand` run, in program order. -/
inductive Ev where
  | patternCompiled
  | fileOpened
  | gzipOpened
  | spawned (i : Nat)
  | dispatch (it : WorkItem)
  | closedCh
  | waitedAll
  | summary (n : Nat)
  | fatalPatternEv
  | fatalOpenEv
  | fatalGzipEv
  | fatalDecodeEv
deriving DecidableEq

/-- The decode loop of `restoreCommand`: each well-decoded record is filtered
by the pattern; a match bumps `nfiles` and is dispatched; EOF ends the loop
normally (close, join, summary); a decode error is `log.Fatalf`. An exhausted
list behaves as EOF. -/
def restoreLoop (m : String → Bool) : List DecodeResult → Nat → List Ev
  | [], n => [.closedCh, .waitedAll, .summary n]
  | .eofR :: _, n => [.closedCh, .waitedAll, .summary n]
  | .corrupt :: _, _ => [.fatalDecodeEv]
  | .ok it :: rest, n =>
    if m it.Path then .dispatch it :: restoreLoop m rest (n + 1)
    else restoreLoop m rest n

/-- Translation of `restoreCommand` as its event trace: compile the pattern,
open the backup file, open the gzip stream (each failure is fatal on the
spot), spawn the workers, then run the decode loop. `openR`/`gzipR` say
whether `os.Open` and `gzip.NewReader` succeed on the given file. -/
def restoreCommand (pat : String) (openR gzipR : Bool) (stream : List DecodeResult)
    (nw : Nat) : List Ev :=
  match regexCompile pat with
  | none => [.fatalPatternEv]
  | some rx =>
    .patternCompiled ::
      if openR then
        .fileOpened ::
          if gzipR then
            .gzipOpened ::
              ((List.range nw).map Ev.spawned ++ restoreLoop (matchString rx) stream 0)
          else [.fatalGzipEv]
      else [.fatalOpenEv]

/-- The records the coordinator accepts: decoded before EOF (or a decode
error) and passing the filter, in stream order. -/
def acceptedItems (m : String → Bool) : List DecodeResult → List WorkItem
  | [] => []
  | .eofR :: _ => []
  | .corrupt :: _ => []
  | .ok it :: rest => if m it.Path then it :: acceptedItems m rest else acceptedItems m rest

/-- A stream whose decoding reaches EOF without a malformed record. -/
def goodStream : List DecodeResult → Bool
  | [] => true
  | .eofR :: _ => true
  | .corrupt :: _ => false
  | .ok _ :: rest => goodStream rest

/-- Helper: the decode loop of a clean stream dispatches exactly the accepted
items in order, then closes the channel, joins the workers, and reports the
running count. -/
theorem restoreLoop_good (m : String → Bool) (stream : List DecodeResult) (n : Nat)
    (hg : goodStream stream = true) :
    restoreLoop m stream n =
      (acceptedItems m stream).map Ev.dispatch ++
        [.closedCh, .waitedAll, .summary (n + (acceptedItems m stream).length)] := by
  induction stream generalizing n with
  | nil => simp [restoreLoop, acceptedItems]
  | cons d rest ih =>
    cases d with
    | eofR => simp [restoreLoop, acceptedItems]
    | corrupt => simp [goodStream] at hg
    | ok it =>
      have hg2 : goodStream rest = true := hg
      by_cases hm : m it.Path = true
      · rw [restoreLoop, if_pos hm, acceptedItems, if_pos hm, ih (n + 1) hg2]
        simp [Nat.add_assoc, Nat.add_comm 1]
      · rw [restoreLoop, if_neg hm, acceptedItems, if_neg hm, ih n hg2]

/-- C6: on a clean run (valid pattern, readable file, decodable stream) the
trace is exactly: compile, open, decompress, spawn the workers, dispatch the
accepted items in stream order, close the channel, join the workers, and
report a summary counting precisely the accepted items — each once,
independent of any per-item outcome (the count is taken at dispatch and the
trace carries no outcomes at all). The summary is the final event; the
elapsed wall-clock duration it also prints is real time, outside the model. -/
theorem c6_summary_counts_accepted (pat : String) (rx : Rx) (stream : List DecodeResult)
    (nw : Nat) (hc : regexCompile pat = some rx) (hg : goodStream stream = true) :
    restoreCommand pat true true stream nw =
      .patternCompiled :: .fileOpened :: .gzipOpened ::
        ((List.range nw).map Ev.spawned ++
          (acceptedItems (matchString rx) stream).map Ev.dispatch ++
          [.closedCh, .waitedAll,
           .summary (acceptedItems (matchString rx) stream).length]) := by
  rw [restoreCommand, hc]
  simp [restoreLoop_good (matchString rx) stream 0 hg]

/-- Witness for C6, the spec's example shape: three decoded records, two of
which match the pattern, yield a final summary of 2. -/
theorem c6_summary_counts_accepted_witness :
    (regexCompile "x" = some (Rx.cat (Rx.chr 'x') Rx.eps)) ∧
    (goodStream [.ok ⟨"x1", ⟨true, "m"⟩⟩, .ok ⟨"y", ⟨true, "m"⟩⟩,
        .ok ⟨"x2", ⟨true, "m"⟩⟩, .eofR] = true) ∧
    restoreCommand "x" true true
        [.ok ⟨"x1", ⟨true, "m"⟩⟩, .ok ⟨"y", ⟨true, "m"⟩⟩, .ok ⟨"x2", ⟨true, "m"⟩⟩, .eofR] 2 =
      [.patternCompiled, .fileOpened, .gzipOpened, .spawned 0, .spawned 1,
       .dispatch ⟨"x1", ⟨true, "m"⟩⟩, .dispatch ⟨"x2", ⟨true, "m"⟩⟩,
       .closedCh, .waitedAll, .summary 2] := by
  have h := c6_summary_counts_accepted "x" (Rx.cat (Rx.chr 'x') Rx.eps)
    [.ok ⟨"x1", ⟨true, "m"⟩⟩, .ok ⟨"y", ⟨true, "m"⟩⟩, .ok ⟨"x2", ⟨true, "m"⟩⟩, .eofR] 2
    rfl (by decide)
  exact ⟨rfl, by decide, h.trans (by decide)⟩

/-- Helper: the decode loop emits no pattern-compilation event (compilation
happens exactly once, before the loop). -/
theorem restoreLoop_no_compile (m : String → Bool) (stream : List DecodeResult) (n : Nat) :
    Ev.patternCompiled ∉ restoreLoop m stream n := by
  induction stream generalizing n with
  | nil => simp [restoreLoop]
  | cons d rest ih =>
    cases d with
    | eofR => simp [restoreLoop]
    | corrupt => simp [restoreLoop]
    | ok j =>
      by_cases hj : m j.Path = true
      · rw [restoreLoop, if_pos hj]
        intro hmem
        rcases List.mem_cons.mp hmem with heq | hmem2
        · exact Ev.noConfusion heq
        · exact ih (n + 1) hmem2
      · rw [restoreLoop, if_neg hj]
        exact ih n

/-- C8: each startup failure aborts on the spot — an invalid pattern yields
only the pattern-fatal event (nothing opened, no worker spawned, nothing
decoded); an unopenable file aborts right after compilation; a gzip failure
aborts right after the open — and on any run that gets past startup the
pattern-compilation event occurs exactly once, as the first event, before the
file-open event. -/
theorem c8_startup_failures (pat : String) (stream : List DecodeResult) (nw : Nat) :
    (regexCompile pat = none →
      ∀ openR gzipR, restoreCommand pat openR gzipR stream nw = [.fatalPatternEv]) ∧
    (∀ rx, regexCompile pat = some rx →
      (∀ gzipR, restoreCommand pat false gzipR stream nw = [.patternCompiled, .fatalOpenEv]) ∧
      restoreCommand pat true false stream nw =
        [.patternCompiled, .fileOpened, .fatalGzipEv] ∧
      ∀ openR gzipR,
        (restoreCommand pat openR gzipR stream nw).count Ev.patternCompiled = 1 ∧
        (restoreCommand pat openR gzipR stream nw).head? = some .patternCompiled) := by
  constructor
  · intro hn openR gzipR
    rw [restoreCommand, hn]
  · intro rx hc
    refine ⟨fun gzipR => by rw [restoreCommand, hc]; rfl, by rw [restoreCommand, hc]; rfl,
      fun openR gzipR => ⟨?_, by rw [restoreCommand, hc]; rfl⟩⟩
    simp only [restoreCommand, hc]
    by_cases ho : openR
    · rw [if_pos ho]
      by_cases hz : gzipR
      · rw [if_pos hz]
        rw [List.count_cons, List.count_cons, List.count_cons]
        have hs : ((List.range nw).map Ev.spawned ++
            restoreLoop (matchString rx) stream 0).count Ev.patternCompiled = 0 := by
          rw [List.count_eq_zero]
          intro hmem
          rcases List.mem_append.mp hmem with h4 | h4
          · obtain ⟨i, _, hbad⟩ := List.mem_map.mp h4
            exact Ev.noConfusion hbad
          · exact restoreLoop_no_compile (matchString rx) stream 0 h4
        simp [hs]
      · rw [if_neg hz]
        rfl
    · rw [if_neg ho]
      rfl

/-- Witness for C8: the invalid pattern "(" aborts immediately; with the
default pattern, an unopenable file and a gzip failure abort in order; a
clean startup begins with exactly one compile event. -/
theorem c8_startup_failures_witness :
    (regexCompile "(" = none) ∧ (regexCompile ".*" = some defaultRx) ∧
    restoreCommand "(" true true [.eofR] 4 = [.fatalPatternEv] ∧
    restoreCommand ".*" false true [.eofR] 4 = [.patternCompiled, .fatalOpenEv] ∧
    restoreCommand ".*" true false [.eofR] 4 =
      [.patternCompiled, .fileOpened, .fatalGzipEv] ∧
    (restoreCommand ".*" true true [.eofR] 4).count Ev.patternCompiled = 1 := by
  have hbad := (c8_startup_failures "(" [.eofR] 4).1 rfl true true
  have hgood := (c8_startup_failures ".*" [.eofR] 4).2 defaultRx rfl
  exact ⟨rfl, rfl, hbad, hgood.1 true, hgood.2.1, (hgood.2.2 true true).1⟩

/-- A worker goroutine's position: blocked on the channel receive, processing
one received item inside `restoreFile`, or returned after seeing the channel
closed. -/
inductive WPhase where
  | idle
  | busy (it : WorkItem)
  | finished
deriving DecidableEq

/-- One worker: its phase and the items it has fully processed, in order. -/
structure Worker where
  phase : WPhase
  completed : List WorkItem
deriving DecidableEq

/-- The coordinator goroutine's position: about to decode the next record,
blocked in `ch <- ob`, blocked in `wg.Wait()`, or done. -/
inductive CPhase where
  | decoding
  | sending (it : WorkItem)
  | waitingWg
  | doneC
deriving DecidableEq

/-- How the process ended: `log.Fatalf`/`os.Exit` or normal return. -/
inductive ExitKind where
  | fatalExit
  | normalExit
deriving DecidableEq

/-- The whole-process state of one `restoreCommand` run: the records not yet
pulled from the decoder, the accepted-count, the coordinator's and every
worker's position, whether the channel is closed, the items whose channel send
has completed (each received by the worker that took it), the log, and
whether/how the process exited. -/
structure PState where
  stream : List DecodeResult
  nfiles : Nat
  cphase : CPhase
  chanClosed : Bool
  workers : List Worker
  dispatched : List WorkItem
  logs : List LogMsg
  exited : Option ExitKind
deriving DecidableEq

/-- The run's fixed context: the compiled pattern as a predicate, the server's
response to each item, the flags, and the target base URL. -/
structure Env where
  m : String → Bool
  world : WorkItem → ServerResp
  fl : Flags
  base : String

/-- A scheduler decision: run the coordinator one step, let worker `i` take
its blocking channel receive, or let worker `i` finish the `restoreFile` call
it is inside. -/
inductive Choice where
  | coord
  | recv (i : Nat)
  | finish (i : Nat)
deriving DecidableEq

/-- Whether a worker has returned. -/
def wFinished (w : Worker) : Bool :=
  match w.phase with
  | .finished => true
  | _ => false

/-- Whether `wg.Wait()` would return: every worker has returned. -/
def allFinished (ws : List Worker) : Bool := ws.all wFinished

/-- One interleaving step of the pipeline. After `os.Exit` (fatal or normal
return from `main`) the state is frozen. The unbuffered channel is a
rendezvous: a send completes only in the same step in which an idle worker
receives the item; a receive on the closed channel ends the worker's loop.
`log.Fatalf` on a malformed record, and `cbfstool.MaybeFatal` on a transport
error inside a worker, exit the process at once. -/
def step (e : Env) (s : PState) (c : Choice) : PState :=
  if s.exited.isSome then s
  else
    match c with
    | .coord =>
      match s.cphase with
      | .decoding =>
        match s.stream with
        | [] => { s with chanClosed := true, cphase := .waitingWg }
        | .eofR :: _ => { s with chanClosed := true, cphase := .waitingWg }
        | .corrupt :: _ =>
          { s with logs := s.logs ++ [.fatalDecodeLog], exited := some .fatalExit }
        | .ok it :: rest =>
          if e.m it.Path then
            { s with stream := rest, nfiles := s.nfiles + 1, cphase := .sending it }
          else
            { s with stream := rest }
      | .sending _ => s
      | .waitingWg =>
        if allFinished s.workers then
          { s with logs := s.logs ++ [.summaryLog s.nfiles], cphase := .doneC,
                   exited := some .normalExit }
        else s
      | .doneC => s
    | .recv i =>
      match s.workers[i]? with
      | some w =>
        match w.phase with
        | .idle =>
          match s.cphase with
          | .sending it =>
            { s with cphase := .decoding,
                     dispatched := s.dispatched ++ [it],
                     workers := s.workers.set i { w with phase := .busy it } }
          | _ =>
            if s.chanClosed then
              { s with workers := s.workers.set i { w with phase := .finished } }
            else s
        | _ => s
      | none => s
    | .finish i =>
      match s.workers[i]? with
      | some w =>
        match w.phase with
        | .busy it =>
          let r := restoreFile e.fl e.base it (e.world it)
          if r.outcome = .fatalTransport then
            { s with logs := s.logs ++ r.logs, exited := some .fatalExit }
          else
            { s with logs := s.logs ++ r.logs ++
                       (if isFailure r.outcome then [LogMsg.errorRestoring it.Path] else []),
                     workers := s.workers.set i ⟨.idle, w.completed ++ [it]⟩ }
        | _ => s
      | none => s

/-- Run a whole schedule of steps. -/
def runSteps (e : Env) : PState → List Choice → PState
  | s, [] => s
  | s, c :: cs => runSteps e (step e s c) cs

/-- The state right after `restoreCommand` has spawned its workers: full
stream ahead, zero accepted, open channel, `nw` idle workers, nothing
dispatched, empty log, process running. -/
def initState (stream : List DecodeResult) (nw : Nat) : PState :=
  { stream := stream, nfiles := 0, cphase := .decoding, chanClosed := false,
    workers := List.replicate nw ⟨.idle, []⟩, dispatched := [], logs := [],
    exited := none }

/-- Items every worker has fully processed, worker by worker. -/
def completedAll (ws : List Worker) : List WorkItem := (ws.map Worker.completed).flatten

/-- Whether the final summary line has been written. -/
def hasSummary (ls : List LogMsg) : Bool :=
  ls.any fun l =>
    match l with
    | .summaryLog _ => true
    | _ => false

/-- The item the coordinator is currently blocked on sending, if any. -/
def pendItems : CPhase → List WorkItem
  | .sending it => [it]
  | _ => []

/-- A worker's share of dispatched items: what it completed plus what it is
processing now. -/
def wContrib (w : Worker) : Multiset WorkItem :=
  (w.completed : Multiset WorkItem) +
    (match w.phase with
     | .busy it => {it}
     | _ => 0)

/-- All workers' shares together. -/
def totalContrib (ws : List Worker) : Multiset WorkItem := (ws.map wContrib).sum

/-- Helper: once the process has exited, no step changes anything
(`os.Exit` kills every goroutine at once). -/
theorem step_frozen (e : Env) (s : PState) (c : Choice) (h : s.exited.isSome = true) :
    step e s c = s := by
  simp [step, h]

/-- Helper: a whole schedule after exit changes nothing. -/
theorem runSteps_frozen (e : Env) (s : PState) (cs : List Choice)
    (h : s.exited.isSome = true) :
    runSteps e s cs = s := by
  induction cs with
  | nil => rfl
  | cons c cs ih => rw [runSteps, step_frozen e s c h]; exact ih

/-- A concrete matching record. -/
def itemA : WorkItem := ⟨"a", ⟨true, "1"⟩⟩

/-- A concrete run context: match everything, server always answers 201. -/
def envA : Env := ⟨fun _ => true, fun _ => .status 201, ⟨false, false, -1⟩, "http://cbfs:8484"⟩

/-- One worker; the first record is dispatched and received, then the decoder
hits a malformed record while the worker is still inside its restore call. -/
def c1Final : PState :=
  runSteps envA (initState [.ok itemA, .corrupt] 1) [.coord, .recv 0, .coord]

/-- The same run, stopped just before the coordinator reads the malformed
record: the first item has been dispatched and its worker is processing it. -/
def c1Mid : PState :=
  runSteps envA (initState [.ok itemA, .corrupt] 1) [.coord, .recv 0]

/-- C1 counterexample: in this reachable execution the malformed record makes
`log.Fatalf` exit the process while `itemA` — already dispatched to the worker
channel and received by worker 0 — has not been processed to completion by any
worker, and no drain happens before the abort is reported. This refutes the
claimed graceful drain. -/
theorem c1_no_graceful_drain_counterexample :
    c1Final.exited = some ExitKind.fatalExit ∧
    itemA ∈ c1Final.dispatched ∧
    itemA ∉ completedAll c1Final.workers ∧
    (∀ w ∈ c1Final.workers, w.phase = WPhase.busy itemA) ∧
    hasSummary c1Final.logs = false := by
  decide

/-- C1 amended: when the decoder meets a malformed record, the process exits
fatally at once — no new record is read, nothing further is dispatched, and
the workers make no further progress of any kind (in particular, items already
dispatched but still being processed are NOT drained). -/
theorem c1_fatal_exits_immediately (e : Env) (s : PState) (rest : List DecodeResult)
    (cs : List Choice) (h1 : s.exited = none) (h2 : s.cphase = .decoding)
    (h3 : s.stream = .corrupt :: rest) :
    (step e s .coord).exited = some ExitKind.fatalExit ∧
    (step e s .coord).dispatched = s.dispatched ∧
    (step e s .coord).workers = s.workers ∧
    (step e s .coord).stream = s.stream ∧
    runSteps e (step e s .coord) cs = step e s .coord := by
  have hs : step e s .coord =
      { s with logs := s.logs ++ [.fatalDecodeLog], exited := some .fatalExit } := by
    simp [step, h1, h2, h3]
  rw [hs]
  exact ⟨rfl, rfl, rfl, rfl, runSteps_frozen _ _ _ rfl⟩

/-- Witness for the amended C1 at the concrete mid-run state `c1Mid`. -/
theorem c1_fatal_exits_immediately_witness :
    ((c1Mid.exited = none) ∧ (c1Mid.cphase = CPhase.decoding) ∧
      (c1Mid.stream = [DecodeResult.corrupt])) ∧
    ((step envA c1Mid .coord).exited = some ExitKind.fatalExit ∧
      (step envA c1Mid .coord).dispatched = c1Mid.dispatched ∧
      (step envA c1Mid .coord).workers = c1Mid.workers ∧
      (step envA c1Mid .coord).stream = c1Mid.stream ∧
      runSteps envA (step envA c1Mid .coord) [.recv 0, .finish 0, .coord] =
        step envA c1Mid .coord) :=
  ⟨⟨by decide, by decide, by decide⟩,
    c1_fatal_exits_immediately envA c1Mid [] [.recv 0, .finish 0, .coord]
      (by decide) (by decide) (by decide)⟩

/-- Helper: a summary is in an appended log iff it is in one of the parts. -/
theorem hasSummary_append (l1 l2 : List LogMsg) :
    hasSummary (l1 ++ l2) = (hasSummary l1 || hasSummary l2) := by
  simp [hasSummary, List.any_append]

/-- Helper: `restoreFile` never writes the summary line. -/
theorem restoreFile_logs_no_summary (fl : Flags) (base : String) (it : WorkItem)
    (resp : ServerResp) :
    hasSummary (restoreFile fl base it resp).logs = false := by
  by_cases hn : fl.noop = true
  · simp [restoreFile, hn, hasSummary]
  · rw [Bool.not_eq_true] at hn
    cases hv : it.Meta.valid with
    | false => simp [restoreFile, hn, hv, hasSummary]
    | true =>
      cases resp with
      | transportError => simp [restoreFile, hn, hv, hasSummary]
      | status code =>
        by_cases h201 : code = 201
        · simp [restoreFile, hn, hv, h201, hasSummary]
        · by_cases h409 : (decide (code = 409) && !fl.force) = true
          · simp [restoreFile, hn, hv, h201, h409, hasSummary]
          · simp [restoreFile, hn, hv, h201, h409, hasSummary]

/-- Helper: replacing worker `i` changes the total share by swapping that
worker's contribution. -/
theorem totalContrib_set (ws : List Worker) (i : Nat) (w w2 : Worker)
    (h : ws[i]? = some w) :
    totalContrib (ws.set i w2) + wContrib w = totalContrib ws + wContrib w2 := by
  induction ws generalizing i with
  | nil => simp at h
  | cons a as ih =>
    cases i with
    | zero =>
      obtain rfl : a = w := by simpa using h
      simp only [List.set_cons_zero, totalContrib, List.map_cons, List.sum_cons]
      abel
    | succ j =>
      rw [List.getElem?_cons_succ] at h
      simp only [List.set_cons_succ, totalContrib, List.map_cons, List.sum_cons]
      have hj := ih j h
      simp only [totalContrib] at hj
      rw [add_assoc, add_assoc, hj]

/-- Helper: a finished worker's phase. -/
theorem wFinished_phase (w : Worker) (h : wFinished w = true) : w.phase = .finished := by
  cases hp : w.phase <;> simp [wFinished, hp] at h ⊢

/-- Helper: once every worker has returned, the total share is exactly the
completed items. -/
theorem totalContrib_allFinished (ws : List Worker) (h : allFinished ws = true) :
    totalContrib ws = (completedAll ws : Multiset WorkItem) := by
  induction ws with
  | nil => simp [totalContrib, completedAll]
  | cons a as ih =>
    rw [allFinished, List.all_cons, Bool.and_eq_true] at h
    have hp := wFinished_phase a h.1
    have has : allFinished as = true := h.2
    simp only [totalContrib, completedAll, List.map_cons, List.sum_cons, List.flatten_cons]
    have ihe := ih has
    simp only [totalContrib, completedAll] at ihe
    rw [ihe, ← Multiset.coe_add, wContrib, hp]
    simp

/-- The run invariant, stated against the initial stream `st0`: the dispatched
items are exactly the workers' shares (exactly-once delivery); the summary is
logged only by the normal exit; a normal exit implies the join barrier passed
(all workers returned) and the coordinator is done; the accepted items of the
whole stream split into those dispatched, the one pending in a blocked send,
and those of the unread remainder; and once the channel is closed the
remainder holds nothing accepted. -/
def Inv (e : Env) (st0 : List DecodeResult) (s : PState) : Prop :=
  ((s.dispatched : Multiset WorkItem) = totalContrib s.workers) ∧
  (hasSummary s.logs = true → s.exited = some .normalExit) ∧
  (s.exited = some .normalExit → allFinished s.workers = true) ∧
  (s.exited = some .normalExit → s.cphase = .doneC) ∧
  (s.dispatched ++ pendItems s.cphase ++ acceptedItems e.m s.stream =
    acceptedItems e.m st0) ∧
  ((s.cphase = .waitingWg ∨ s.cphase = .doneC) → acceptedItems e.m s.stream = [])

/-- Helper: the invariant holds at start. -/
theorem Inv_init (e : Env) (st0 : List DecodeResult) (nw : Nat) :
    Inv e st0 (initState st0 nw) := by
  refine ⟨?_, ?_, ?_, ?_, ?_, ?_⟩
  · simp only [initState]
    induction nw with
    | zero => simp [totalContrib]
    | succ k ih =>
      simp only [List.replicate_succ, totalContrib, List.map_cons, List.sum_cons] at ih ⊢
      rw [← ih]
      simp [wContrib]
  · intro h
    simp [initState, hasSummary] at h
  · intro h
    simp [initState] at h
  · intro h
    simp [initState] at h
  · simp [initState, pendItems]
  · intro h
    rcases h with h | h <;> simp [initState] at h

/-- Helper: every scheduler step preserves the run invariant. -/
theorem Inv_step (e : Env) (st0 : List DecodeResult) (s : PState) (c : Choice)
    (h : Inv e st0 s) : Inv e st0 (step e s c) := by
  obtain ⟨h1, h2, h3, h4, h5, h6⟩ := h
  by_cases hex : s.exited.isSome = true
  · rw [step_frozen e s c hex]
    exact ⟨h1, h2, h3, h4, h5, h6⟩
  have hnone : s.exited = none := by
    cases he : s.exited with
    | none => rfl
    | some k => rw [he] at hex; simp at hex
  have hSum : hasSummary s.logs = false := by
    cases hS : hasSummary s.logs with
    | false => rfl
    | true =>
      have := h2 hS
      rw [hnone] at this
      exact Option.noConfusion this
  cases c with
  | coord =>
    cases hcp : s.cphase with
    | decoding =>
      cases hst : s.stream with
      | nil =>
        have hsq : step e s .coord =
            { s with chanClosed := true, cphase := .waitingWg } := by
          simp [step, hnone, hcp, hst]
        rw [hsq]
        refine ⟨h1, ?_, ?_, ?_, ?_, ?_⟩
        · intro hS; exact absurd hS (by simp [hSum])
        · intro hE; exact absurd hE (by simp [hnone])
        · intro hE; exact absurd hE (by simp [hnone])
        · rw [hcp] at h5
          simpa [pendItems] using h5
        · intro _
          show acceptedItems e.m s.stream = []
          rw [hst]
          rfl
      | cons d rest =>
        cases d with
        | eofR =>
          have hsq : step e s .coord =
              { s with chanClosed := true, cphase := .waitingWg } := by
            simp [step, hnone, hcp, hst]
          rw [hsq]
          refine ⟨h1, ?_, ?_, ?_, ?_, ?_⟩
          · intro hS; exact absurd hS (by simp [hSum])
          · intro hE; exact absurd hE (by simp [hnone])
          · intro hE; exact absurd hE (by simp [hnone])
          · rw [hcp] at h5
            simpa [pendItems] using h5
          · intro _
            show acceptedItems e.m s.stream = []
            rw [hst]
            rfl
        | corrupt =>
          have hsq : step e s .coord =
              { s with logs := s.logs ++ [.fatalDecodeLog],
                       exited := some .fatalExit } := by
            simp [step, hnone, hcp, hst]
          rw [hsq]
          refine ⟨h1, ?_, ?_, ?_, h5, h6⟩
          · intro hS
            have hS2 : hasSummary (s.logs ++ [LogMsg.fatalDecodeLog]) = true := hS
            rw [hasSummary_append, hSum] at hS2
            simp [hasSummary] at hS2
          · intro hE; exact absurd hE (by simp)
          · intro hE; exact absurd hE (by simp)
        | ok it =>
          by_cases hm : e.m it.Path = true
          · have hsq : step e s .coord =
                { s with stream := rest, nfiles := s.nfiles + 1,
                         cphase := .sending it } := by
              simp [step, hnone, hcp, hst, hm]
            rw [hsq]
            refine ⟨h1, ?_, ?_, ?_, ?_, ?_⟩
            · intro hS; exact absurd hS (by simp [hSum])
            · intro hE; exact absurd hE (by simp [hnone])
            · intro hE; exact absurd hE (by simp [hnone])
            · rw [hcp, hst] at h5
              simp only [pendItems, acceptedItems, hm, if_true] at h5 ⊢
              simpa using h5
            · rintro (hh | hh) <;> exact CPhase.noConfusion hh
          · have hsq : step e s .coord = { s with stream := rest } := by
              simp [step, hnone, hcp, hst, hm]
            rw [hsq]
            refine ⟨h1, ?_, ?_, ?_, ?_, ?_⟩
            · intro hS; exact absurd hS (by simp [hSum])
            · intro hE; exact absurd hE (by simp [hnone])
            · intro hE; exact absurd hE (by simp [hnone])
            · rw [hcp, hst] at h5
              rw [Bool.not_eq_true] at hm
              show s.dispatched ++ pendItems s.cphase ++ acceptedItems e.m rest =
                acceptedItems e.m st0
              rw [hcp]
              simp only [pendItems, acceptedItems, hm] at h5 ⊢
              simpa using h5
            · intro hor
              rcases hor with hh | hh
              · have hh2 : s.cphase = CPhase.waitingWg := hh
                rw [hcp] at hh2
                exact CPhase.noConfusion hh2
              · have hh2 : s.cphase = CPhase.doneC := hh
                rw [hcp] at hh2
                exact CPhase.noConfusion hh2
    | sending it2 =>
      have hsq : step e s .coord = s := by
        simp [step, hnone, hcp]
      rw [hsq]
      exact ⟨h1, h2, h3, h4, h5, h6⟩
    | waitingWg =>
      by_cases hall : allFinished s.workers = true
      · have hsq : step e s .coord =
            { s with logs := s.logs ++ [.summaryLog s.nfiles], cphase := .doneC,
                     exited := some .normalExit } := by
          simp [step, hnone, hcp, hall]
        rw [hsq]
        refine ⟨h1, fun _ => rfl, fun _ => hall, fun _ => rfl, ?_, ?_⟩
        · rw [hcp] at h5
          simpa [pendItems] using h5
        · intro _
          exact h6 (Or.inl hcp)
      · have hsq : step e s .coord = s := by
          simp [step, hnone, hcp, hall]
        rw [hsq]
        exact ⟨h1, h2, h3, h4, h5, h6⟩
    | doneC =>
      have hsq : step e s .coord = s := by
        simp [step, hnone, hcp]
      rw [hsq]
      exact ⟨h1, h2, h3, h4, h5, h6⟩
  | recv i =>
    cases hgi : s.workers[i]? with
    | none =>
      have hsq : step e s (.recv i) = s := by
        simp [step, hnone, hgi]
      rw [hsq]
      exact ⟨h1, h2, h3, h4, h5, h6⟩
    | some w =>
      cases hwp : w.phase with
      | busy it =>
        have hsq : step e s (.recv i) = s := by
          simp [step, hnone, hgi, hwp]
        rw [hsq]
        exact ⟨h1, h2, h3, h4, h5, h6⟩
      | finished =>
        have hsq : step e s (.recv i) = s := by
          simp [step, hnone, hgi, hwp]
        rw [hsq]
        exact ⟨h1, h2, h3, h4, h5, h6⟩
      | idle =>
        cases hcp : s.cphase with
        | sending it =>
          have hsq : step e s (.recv i) =
              { s with cphase := .decoding,
                       dispatched := s.dispatched ++ [it],
                       workers := s.workers.set i ⟨.busy it, w.completed⟩ } := by
            simp [step, hnone, hgi, hwp, hcp]
          rw [hsq]
          have hw1 : wContrib w = (w.completed : Multiset WorkItem) := by
            rw [wContrib, hwp]; simp
          have hw2 : wContrib ⟨.busy it, w.completed⟩ =
              (w.completed : Multiset WorkItem) + {it} := rfl
          have hset := totalContrib_set s.workers i w ⟨.busy it, w.completed⟩ hgi
          rw [hw1, hw2] at hset
          refine ⟨?_, ?_, ?_, ?_, ?_, ?_⟩
          · show (↑(s.dispatched ++ [it]) : Multiset WorkItem) =
              totalContrib (s.workers.set i ⟨.busy it, w.completed⟩)
            have hT : totalContrib (s.workers.set i ⟨.busy it, w.completed⟩) =
                totalContrib s.workers + {it} := by
              apply add_right_cancel (b := (w.completed : Multiset WorkItem))
              rw [hset]
              abel
            rw [hT, ← h1, ← Multiset.coe_singleton it, Multiset.coe_add]
          · intro hS; exact absurd hS (by simp [hSum])
          · intro hE; exact absurd hE (by simp [hnone])
          · intro hE; exact absurd hE (by simp [hnone])
          · rw [hcp] at h5
            simp only [pendItems] at h5 ⊢
            show s.dispatched ++ [it] ++ [] ++ acceptedItems e.m s.stream =
              acceptedItems e.m st0
            simpa using h5
          · rintro (hh | hh) <;> exact CPhase.noConfusion hh
        | decoding =>
          by_cases hcl : s.chanClosed = true
          · have hsq : step e s (.recv i) =
                { s with workers := s.workers.set i ⟨.finished, w.completed⟩ } := by
              simp [step, hnone, hgi, hwp, hcp, hcl]
            rw [hsq]
            have hw1 : wContrib w = (w.completed : Multiset WorkItem) := by
              rw [wContrib, hwp]; simp
            have hw2 : wContrib ⟨.finished, w.completed⟩ =
                (w.completed : Multiset WorkItem) := by
              rw [wContrib]; simp
            have hset := totalContrib_set s.workers i w ⟨.finished, w.completed⟩ hgi
            rw [hw1, hw2] at hset
            refine ⟨?_, ?_, ?_, ?_, h5, h6⟩
            · show (↑s.dispatched : Multiset WorkItem) =
                totalContrib (s.workers.set i ⟨.finished, w.completed⟩)
              rw [h1]
              exact (add_right_cancel hset).symm
            · intro hS; exact absurd hS (by simp [hSum])
            · intro hE; exact absurd hE (by simp [hnone])
            · intro hE; exact absurd hE (by simp [hnone])
          · have hsq : step e s (.recv i) = s := by
              simp [step, hnone, hgi, hwp, hcp, hcl]
            rw [hsq]
            exact ⟨h1, h2, h3, h4, h5, h6⟩
        | waitingWg =>
          by_cases hcl : s.chanClosed = true
          · have hsq : step e s (.recv i) =
                { s with workers := s.workers.set i ⟨.finished, w.completed⟩ } := by
              simp [step, hnone, hgi, hwp, hcp, hcl]
            rw [hsq]
            have hw1 : wContrib w = (w.completed : Multiset WorkItem) := by
              rw [wContrib, hwp]; simp
            have hw2 : wContrib ⟨.finished, w.completed⟩ =
                (w.completed : Multiset WorkItem) := by
              rw [wContrib]; simp
            have hset := totalContrib_set s.workers i w ⟨.finished, w.completed⟩ hgi
            rw [hw1, hw2] at hset
            refine ⟨?_, ?_, ?_, ?_, h5, h6⟩
            · show (↑s.dispatched : Multiset WorkItem) =
                totalContrib (s.workers.set i ⟨.finished, w.completed⟩)
              rw [h1]
              exact (add_right_cancel hset).symm
            · intro hS; exact absurd hS (by simp [hSum])
            · intro hE; exact absurd hE (by simp [hnone])
            · intro hE; exact absurd hE (by simp [hnone])
          · have hsq : step e s (.recv i) = s := by
              simp [step, hnone, hgi, hwp, hcp, hcl]
            rw [hsq]
            exact ⟨h1, h2, h3, h4, h5, h6⟩
        | doneC =>
          by_cases hcl : s.chanClosed = true
          · have hsq : step e s (.recv i) =
                { s with workers := s.workers.set i ⟨.finished, w.completed⟩ } := by
              simp [step, hnone, hgi, hwp, hcp, hcl]
            rw [hsq]
            have hw1 : wContrib w = (w.completed : Multiset WorkItem) := by
              rw [wContrib, hwp]; simp
            have hw2 : wContrib ⟨.finished, w.completed⟩ =
                (w.completed : Multiset WorkItem) := by
              rw [wContrib]; simp
            have hset := totalContrib_set s.workers i w ⟨.finished, w.completed⟩ hgi
            rw [hw1, hw2] at hset
            refine ⟨?_, ?_, ?_, ?_, h5, h6⟩
            · show (↑s.dispatched : Multiset WorkItem) =
                totalContrib (s.workers.set i ⟨.finished, w.completed⟩)
              rw [h1]
              exact (add_right_cancel hset).symm
            · intro hS; exact absurd hS (by simp [hSum])
            · intro hE; exact absurd hE (by simp [hnone])
            · intro hE; exact absurd hE (by simp [hnone])
          · have hsq : step e s (.recv i) = s := by
              simp [step, hnone, hgi, hwp, hcp, hcl]
            rw [hsq]
            exact ⟨h1, h2, h3, h4, h5, h6⟩
  | finish i =>
    cases hgi : s.workers[i]? with
    | none =>
      have hsq : step e s (.finish i) = s := by
        simp [step, hnone, hgi]
      rw [hsq]
      exact ⟨h1, h2, h3, h4, h5, h6⟩
    | some w =>
      cases hwp : w.phase with
      | idle =>
        have hsq : step e s (.finish i) = s := by
          simp [step, hnone, hgi, hwp]
        rw [hsq]
        exact ⟨h1, h2, h3, h4, h5, h6⟩
      | finished =>
        have hsq : step e s (.finish i) = s := by
          simp [step, hnone, hgi, hwp]
        rw [hsq]
        exact ⟨h1, h2, h3, h4, h5, h6⟩
      | busy it =>
        by_cases hf : (restoreFile e.fl e.base it (e.world it)).outcome = .fatalTransport
        · have hsq : step e s (.finish i) =
              { s with logs := s.logs ++ (restoreFile e.fl e.base it (e.world it)).logs,
                       exited := some .fatalExit } := by
            simp [step, hnone, hgi, hwp, hf]
          rw [hsq]
          refine ⟨h1, ?_, ?_, ?_, h5, h6⟩
          · intro hS
            have hS2 : hasSummary
                (s.logs ++ (restoreFile e.fl e.base it (e.world it)).logs) = true := hS
            rw [hasSummary_append, hSum, restoreFile_logs_no_summary] at hS2
            simp at hS2
          · intro hE; exact absurd hE (by simp)
          · intro hE; exact absurd hE (by simp)
        · have hsq : step e s (.finish i) =
              { s with
                logs := s.logs ++ (restoreFile e.fl e.base it (e.world it)).logs ++
                  (if isFailure (restoreFile e.fl e.base it (e.world it)).outcome then
                    [LogMsg.errorRestoring it.Path] else []),
                workers := s.workers.set i ⟨.idle, w.completed ++ [it]⟩ } := by
            simp [step, hnone, hgi, hwp, hf]
          rw [hsq]
          have hw1 : wContrib w = (w.completed : Multiset WorkItem) + {it} := by
            rw [wContrib, hwp]
          have hw2 : wContrib ⟨.idle, w.completed ++ [it]⟩ =
              (w.completed : Multiset WorkItem) + {it} := by
            rw [wContrib]
            simp [← Multiset.coe_singleton, Multiset.coe_add]
          have hset := totalContrib_set s.workers i w ⟨.idle, w.completed ++ [it]⟩ hgi
          rw [hw1, hw2] at hset
          have hload : hasSummary
              (if isFailure (restoreFile e.fl e.base it (e.world it)).outcome then
                [LogMsg.errorRestoring it.Path] else []) = false := by
            split <;> rfl
          refine ⟨?_, ?_, ?_, ?_, h5, h6⟩
          · show (↑s.dispatched : Multiset WorkItem) =
              totalContrib (s.workers.set i ⟨.idle, w.completed ++ [it]⟩)
            rw [h1]
            exact (add_right_cancel hset).symm
          · intro hS
            have hS2 : hasSummary
                (s.logs ++ (restoreFile e.fl e.base it (e.world it)).logs ++
                  (if isFailure (restoreFile e.fl e.base it (e.world it)).outcome then
                    [LogMsg.errorRestoring it.Path] else [])) = true := hS
            rw [hasSummary_append, hasSummary_append, hSum,
              restoreFile_logs_no_summary, hload] at hS2
            simp at hS2
          · intro hE; exact absurd hE (by simp [hnone])
          · intro hE; exact absurd hE (by simp [hnone])

/-- Helper: the invariant holds after any schedule from any invariant state. -/
theorem Inv_runSteps (e : Env) (st0 : List DecodeResult) (s : PState) (cs : List Choice)
    (h : Inv e st0 s) : Inv e st0 (runSteps e s cs) := by
  induction cs generalizing s with
  | nil => exact h
  | cons c cs ih => exact ih (step e s c) (Inv_step e st0 s c h)

/-- C9: in every interleaving of the pipeline from the spawn point, once the
final summary has been logged: the process has returned normally, every worker
has passed the join barrier, the multiset of items whose send completed equals
the multiset of items fully processed by the workers (each dispatched item was
received and processed by exactly one worker exactly once — no duplication, no
silent drop), and the dispatched list is exactly the filtered decode stream in
order. The converse ordering also holds by construction: the summary event can
only ever be produced by the step that requires `allFinished`, so the summary
happens-after every worker has finished every item it received. -/
theorem c9_exactly_once_and_join_barrier (e : Env) (st0 : List DecodeResult) (nw : Nat)
    (cs : List Choice)
    (hs : hasSummary (runSteps e (initState st0 nw) cs).logs = true) :
    (runSteps e (initState st0 nw) cs).exited = some ExitKind.normalExit ∧
    allFinished (runSteps e (initState st0 nw) cs).workers = true ∧
    ((runSteps e (initState st0 nw) cs).dispatched : Multiset WorkItem) =
      (completedAll (runSteps e (initState st0 nw) cs).workers : Multiset WorkItem) ∧
    (runSteps e (initState st0 nw) cs).dispatched = acceptedItems e.m st0 := by
  have hinv := Inv_runSteps e st0 (initState st0 nw) cs (Inv_init e st0 nw)
  obtain ⟨h1, h2, h3, h4, h5, h6⟩ := hinv
  have hex := h2 hs
  have hall := h3 hex
  have hdone := h4 hex
  refine ⟨hex, hall, ?_, ?_⟩
  · rw [h1, totalContrib_allFinished _ hall]
  · have hacc := h6 (Or.inr hdone)
    rw [hdone, hacc] at h5
    simpa [pendItems] using h5

/-- Witness for C9: a one-worker, one-record schedule that reaches the
summary. -/
theorem c9_exactly_once_and_join_barrier_witness :
    (hasSummary (runSteps envA (initState [.ok itemA, .eofR] 1)
        [.coord, .recv 0, .finish 0, .coord, .recv 0, .coord]).logs = true) ∧
    ((runSteps envA (initState [.ok itemA, .eofR] 1)
        [.coord, .recv 0, .finish 0, .coord, .recv 0, .coord]).exited =
      some ExitKind.normalExit ∧
    allFinished (runSteps envA (initState [.ok itemA, .eofR] 1)
        [.coord, .recv 0, .finish 0, .coord, .recv 0, .coord]).workers = true ∧
    ((runSteps envA (initState [.ok itemA, .eofR] 1)
        [.coord, .recv 0, .finish 0, .coord, .recv 0, .coord]).dispatched :
          Multiset WorkItem) =
      (completedAll (runSteps envA (initState [.ok itemA, .eofR] 1)
        [.coord, .recv 0, .finish 0, .coord, .recv 0, .coord]).workers :
          Multiset WorkItem) ∧
    (runSteps envA (initState [.ok itemA, .eofR] 1)
        [.coord, .recv 0, .finish 0, .coord, .recv 0, .coord]).dispatched =
      acceptedItems envA.m [.ok itemA, .eofR]) :=
  ⟨by decide,
    c9_exactly_once_and_join_barrier envA [.ok itemA, .eofR] 1
      [.coord, .recv 0, .finish 0, .coord, .recv 0, .coord] (by decide)⟩

/-- Helper: with no workers at all, a coordinator blocked in a channel send
can never be unblocked — every scheduler choice is a no-op. -/
theorem step_stuck_no_workers (e : Env) (s : PState) (it : WorkItem) (c : Choice)
    (hw : s.workers = []) (hc : s.cphase = .sending it) (he : s.exited = none) :
    step e s c = s := by
  cases c with
  | coord => simp [step, he, hc]
  | recv i => simp [step, he, hw]
  | finish i => simp [step, he, hw]

/-- Helper: the blocked-send state with no workers is stuck forever. -/
theorem runSteps_stuck_no_workers (e : Env) (s : PState) (it : WorkItem)
    (cs : List Choice) (hw : s.workers = []) (hc : s.cphase = .sending it)
    (he : s.exited = none) :
    runSteps e s cs = s := by
  induction cs with
  | nil => rfl
  | cons c cs ih => rw [runSteps, step_stuck_no_workers e s it c hw hc he]; exact ih

/-- C10: nothing validates the worker count against the stated ≥ 1
requirement — with `workers = 0` the run starts anyway, and as soon as the
first decoded record passes the filter the coordinator blocks forever on the
unbuffered channel send: under every schedule the state stays frozen in the
sending phase with the process never exiting and no summary ever logged. -/
theorem c10_zero_workers_blocks_forever (e : Env) (it : WorkItem)
    (rest : List DecodeResult) (cs : List Choice) (hm : e.m it.Path = true) :
    (runSteps e (initState (.ok it :: rest) 0) (.coord :: cs)).exited = none ∧
    (runSteps e (initState (.ok it :: rest) 0) (.coord :: cs)).cphase = .sending it ∧
    hasSummary (runSteps e (initState (.ok it :: rest) 0) (.coord :: cs)).logs =
      false := by
  have h1 : step e (initState (.ok it :: rest) 0) .coord =
      { stream := rest, nfiles := 1, cphase := .sending it, chanClosed := false,
        workers := [], dispatched := [], logs := [], exited := none } := by
    simp [step, initState, hm]
  rw [runSteps, h1, runSteps_stuck_no_workers e _ it cs rfl rfl rfl]
  exact ⟨rfl, rfl, rfl⟩

/-- Witness for C10: zero workers, a matching first record, and a schedule
that tries every kind of step. -/
theorem c10_zero_workers_blocks_forever_witness :
    (envA.m itemA.Path = true) ∧
    ((runSteps envA (initState [.ok itemA, .eofR] 0)
        [.coord, .recv 0, .finish 0, .coord, .coord]).exited = none ∧
    (runSteps envA (initState [.ok itemA, .eofR] 0)
        [.coord, .recv 0, .finish 0, .coord, .coord]).cphase = .sending itemA ∧
    hasSummary (runSteps envA (initState [.ok itemA, .eofR] 0)
        [.coord, .recv 0, .finish 0, .coord, .coord]).logs = false) :=
  ⟨rfl, c10_zero_workers_blocks_forever envA itemA [.eofR]
    [.recv 0, .finish 0, .coord, .coord] rfl⟩

end Cbfs
